import Mathlib

/-!
Verification development for the keyframe tween calculator
(src/tween-calculator/src/tween-calculator.js, the `TweenCalculator` class).

The JavaScript code is shallowly embedded: JavaScript numbers are modelled
by `JSNum` (an exact rational, or NaN, or a signed infinity, with IEEE-style
propagation through the arithmetic the code performs), style values by
`JSVal` (number, string, null, or an array of parsed arguments), and the
regex-based parsers are modelled by executable scanners with the same
match semantics.  Code paths on which the JavaScript would throw a
TypeError are modelled with `Option` (`none` = the call throws): the two
such sites are `parseFilter` (destructuring `null` when a filter argument
has no digits) and `interpolateTransform` (calling `this.isNumericFunction`,
a method that does not exist on this class).
-/

attribute [local semireducible] Rat.add Rat.mul Rat.sub Rat.inv Rat.ofScientific

namespace Tween

/-- A JavaScript number: a finite value (kept exact as a rational), NaN, or a
signed infinity. -/
inductive JSNum where
  | num (q : ℚ)
  | nan
  | inf
  | negInf
deriving DecidableEq, Repr

/-- JavaScript unary minus. -/
def jneg : JSNum → JSNum
  | .num q => .num (-q)
  | .nan => .nan
  | .inf => .negInf
  | .negInf => .inf

/-- JavaScript addition (NaN propagates; `Infinity + -Infinity = NaN`). -/
def jadd : JSNum → JSNum → JSNum
  | .nan, _ => .nan
  | _, .nan => .nan
  | .num a, .num b => .num (a + b)
  | .inf, .negInf => .nan
  | .negInf, .inf => .nan
  | .inf, _ => .inf
  | _, .inf => .inf
  | .negInf, _ => .negInf
  | _, .negInf => .negInf

/-- JavaScript subtraction. -/
def jsub (a b : JSNum) : JSNum := jadd a (jneg b)

/-- JavaScript multiplication (`0 * Infinity = NaN`). -/
def jmul : JSNum → JSNum → JSNum
  | .nan, _ => .nan
  | _, .nan => .nan
  | .num a, .num b => .num (a * b)
  | .inf, .inf => .inf
  | .inf, .negInf => .negInf
  | .negInf, .inf => .negInf
  | .negInf, .negInf => .inf
  | .inf, .num q => if q = 0 then .nan else if 0 < q then .inf else .negInf
  | .num q, .inf => if q = 0 then .nan else if 0 < q then .inf else .negInf
  | .negInf, .num q => if q = 0 then .nan else if 0 < q then .negInf else .inf
  | .num q, .negInf => if q = 0 then .nan else if 0 < q then .negInf else .inf

/-- JavaScript division (`0/0 = NaN`, `x/0 = ±Infinity` for `x ≠ 0`). -/
def jdiv : JSNum → JSNum → JSNum
  | .nan, _ => .nan
  | _, .nan => .nan
  | .num a, .num b =>
    if b = 0 then (if a = 0 then .nan else if 0 < a then .inf else .negInf)
    else .num (a / b)
  | .num _, .inf => .num 0
  | .num _, .negInf => .num 0
  | .inf, .num b => if 0 ≤ b then .inf else .negInf
  | .negInf, .num b => if 0 ≤ b then .negInf else .inf
  | .inf, _ => .nan
  | .negInf, _ => .nan

/-- JavaScript `<` as a Boolean (any comparison with NaN is false). -/
def jltB : JSNum → JSNum → Bool
  | .nan, _ => false
  | _, .nan => false
  | .num a, .num b => decide (a < b)
  | .num _, .inf => true
  | .num _, .negInf => false
  | .inf, _ => false
  | .negInf, .negInf => false
  | .negInf, _ => true

/-- JavaScript `Math.round`: round half toward positive infinity. -/
def jround : JSNum → JSNum
  | .num q => .num (Rat.floor (q + 1 / 2))
  | .nan => .nan
  | .inf => .inf
  | .negInf => .negInf

/-- The linear-interpolation expression `start + (end - start) * factor` the
code computes, for finite endpoints and a JavaScript factor. -/
def jinterp (a b : ℚ) (factor : JSNum) : JSNum :=
  jadd (.num a) (jmul (.num (b - a)) factor)

/-- The same expression with JavaScript-number endpoints (used for color
channels, which can be NaN when a hex pair fails to parse). -/
def jinterpJ (a b factor : JSNum) : JSNum :=
  jadd a (jmul (jsub b a) factor)

/-- Render the integer `n / 10000` the way
`parseFloat(x.toFixed(4)).toString()` renders it: decimal point only when
needed, trailing zeros of the fraction removed. -/
def fixed4ToString (n : ℤ) : String :=
  let a := n.natAbs
  let ip := a / 10000
  let fp := a % 10000
  let sign := if n < 0 then "-" else ""
  if fp = 0 then sign ++ toString ip
  else
    let ds := toString fp
    let ds4 := String.mk (List.replicate (4 - ds.length) '0') ++ ds
    let trimmed := String.mk ((ds4.data.reverse.dropWhile (fun c => c == '0')).reverse)
    sign ++ toString ip ++ "." ++ trimmed

/-- `formatNumber(num)` from the source:
`parseFloat(Number(num).toFixed(4)).toString()`.  `toFixed(4)` rounds to
four decimals picking the larger candidate on ties; `NaN` and the
infinities print as their JavaScript string forms. -/
def formatNumber : JSNum → String
  | .num q => fixed4ToString (Rat.floor (q * 10000 + 1 / 2))
  | .nan => "NaN"
  | .inf => "Infinity"
  | .negInf => "-Infinity"

/-- A parsed transform-function argument list: the source stores a single
`{value, unit}` object, or an array of them for multi-argument functions. -/
inductive TArg where
  | one (value : ℚ) (unit : String)
  | many (args : List (ℚ × String))
deriving DecidableEq, Repr

/-- A JavaScript style value as this code manipulates it: a number, a
string, `null`, or (in one transform corner) an array of parsed argument
objects. -/
inductive JSVal where
  | num (q : ℚ)
  | str (s : String)
  | null
  | arr (args : List (ℚ × String))
deriving DecidableEq, Repr

/-- JavaScript string coercion of a `JSVal` (template interpolation /
`String(v)`).  An array of parsed-argument objects prints as
`[object Object]` entries joined by commas.  For numbers outside this
code's short-decimal range the JavaScript full-precision printing is
approximated by the 4-decimal printer. -/
def jstr : JSVal → String
  | .str s => s
  | .num q => formatNumber (.num q)
  | .null => "null"
  | .arr l => String.intercalate "," (l.map (fun _ => "[object Object]"))

/-- Decimal digits of a character run. -/
def digitsToNat (cs : List Char) : ℕ :=
  cs.foldl (fun n c => 10 * n + (c.toNat - ('0').toNat)) 0

/-- The optional `-?` sign of the numeric regex. -/
def stripNegSign : List Char → Bool × List Char
  | ('-' :: t) => (true, t)
  | cs => (false, cs)

/-- The anchored match `^(-?\d*\.?\d+)(\D*)$` used by `parseValue` (and by
the per-argument transform parser): an optional sign, then a decimal
number that must run through the last digit of the string, then a
digit-free unit.  Equivalently: after the optional sign, the segment up to
and including the last digit consists of digits with at most one dot. -/
def parseNumUnit (s : String) : Option (ℚ × String) :=
  let cs := s.data
  let p := stripNegSign cs
  let neg := p.1
  let rest := p.2
  let unitChars := (rest.reverse.takeWhile (fun c => !c.isDigit)).reverse
  let mid := rest.take (rest.length - unitChars.length)
  if mid = [] then none
  else if mid.all (fun c => c.isDigit || c == '.') && mid.count '.' ≤ 1 then
    let ipart := mid.takeWhile (fun c => c != '.')
    let fpart := (mid.dropWhile (fun c => c != '.')).drop 1
    let v : ℚ := (digitsToNat ipart : ℚ) + (digitsToNat fpart : ℚ) / ((10 : ℚ) ^ fpart.length)
    some (if neg then -v else v, String.mk unitChars)
  else none

/-- JavaScript `\w` (`[A-Za-z0-9_]`). -/
def isWordChar (c : Char) : Bool := c.isAlphanum || c == '_'

/-- One global scan of `/(\w+)\(([^)]+)\)/g`: each match is a maximal
word-character run immediately followed by a parenthesized, nonempty,
`)`-free argument string.  Fuel is the remaining string length (every step
consumes at least one character). -/
def scanFnsAux : ℕ → List Char → List (String × String)
  | 0, _ => []
  | _ + 1, [] => []
  | fuel + 1, c :: cs =>
    if isWordChar c then
      let run := (c :: cs).takeWhile isWordChar
      let after := (c :: cs).dropWhile isWordChar
      match after with
      | ('(' :: t) =>
        let args := t.takeWhile (fun d => d != ')')
        match t.dropWhile (fun d => d != ')') with
        | (')' :: t2) =>
          if args = [] then scanFnsAux fuel t
          else (String.mk run, String.mk args) :: scanFnsAux fuel t2
        | _ => scanFnsAux fuel t
      | _ => scanFnsAux fuel after
    else scanFnsAux fuel cs

/-- All `name(args)` matches of `/(\w+)\(([^)]+)\)/g` in order. -/
def scanFns (cs : List Char) : List (String × String) :=
  scanFnsAux cs.length cs

/-- A separator match of `/\s*,\s*|\s+/` at the start of the input:
either optional whitespace, a comma and optional whitespace, or (failing
the comma alternative) a nonempty whitespace run.  Returns the remainder
after the separator. -/
def sepMatch (cs : List Char) : Option (List Char) :=
  let ws := cs.dropWhile Char.isWhitespace
  match ws with
  | (',' :: t) => some (t.dropWhile Char.isWhitespace)
  | _ =>
    match cs with
    | [] => none
    | c :: _ => if c.isWhitespace then some ws else none

/-- `String.prototype.split(/\s*,\s*|\s+/)`, fueled by the string length. -/
def jsSplitAux : ℕ → List Char → List Char → List (List Char)
  | 0, acc, _ => [acc.reverse]
  | _ + 1, acc, [] => [acc.reverse]
  | fuel + 1, acc, c :: cs =>
    match sepMatch (c :: cs) with
    | some t => acc.reverse :: jsSplitAux fuel [] t
    | none => jsSplitAux fuel (c :: acc) cs

/-- Split an argument string on `/\s*,\s*|\s+/`. -/
def jsSplit (s : String) : List String :=
  (jsSplitAux s.data.length [] s.data).map String.mk

/-- JavaScript-object lookup on an insertion-ordered association list. -/
def getProp : List (String × α) → String → Option α
  | [], _ => none
  | (k, v) :: l, p => if p = k then some v else getProp l p

/-- JavaScript-object assignment `obj[k] = v`: overwrite in place if the
key exists, else append (insertion order preserved). -/
def objInsert (m : List (String × α)) (k : String) (v : α) : List (String × α) :=
  if (getProp m k).isSome then m.map (fun p => if p.1 = k then (k, v) else p)
  else m ++ [(k, v)]

/-- `new Set(list)` iteration order: first occurrences, in order. -/
def jsDedup (l : List String) : List String :=
  l.foldl (fun acc x => if x ∈ acc then acc else acc ++ [x]) []

/-- `String.prototype.startsWith`. -/
def strStartsWith (s p : String) : Bool := p.data.isPrefixOf s.data

/-- Hexadecimal digit value. -/
def hexVal (c : Char) : Option ℕ :=
  if c.isDigit then some (c.toNat - ('0').toNat)
  else if ('a' ≤ c ∧ c ≤ 'f') then some (c.toNat - ('a').toNat + 10)
  else if ('A' ≤ c ∧ c ≤ 'F') then some (c.toNat - ('A').toNat + 10)
  else none

/-- `parseInt(s, 16)`: the longest valid hexadecimal prefix, NaN if the
first character is not a hex digit. -/
def parseIntHex (cs : List Char) : JSNum :=
  let ds := cs.takeWhile (fun c => (hexVal c).isSome)
  if ds = [] then .nan
  else .num ((ds.foldl (fun n c => 16 * n + ((hexVal c).getD 0)) 0 : ℕ) : ℚ)

/-- `isColor` from the source: the unanchored-at-the-end test
`/^(#[0-9A-Fa-f]{6}|rgb|hsl|rgba|hsla)/.test(value)` — a `#` followed by
six hex digits, or a `rgb`/`hsl` prefix (which subsumes `rgba`/`hsla`).
Non-string values never match. -/
def isColor (value : JSVal) : Bool :=
  match value with
  | .str s =>
    (match s.data with
     | ('#' :: c1 :: c2 :: c3 :: c4 :: c5 :: c6 :: _) =>
       (hexVal c1).isSome && (hexVal c2).isSome && (hexVal c3).isSome &&
       (hexVal c4).isSome && (hexVal c5).isSome && (hexVal c6).isSome
     | _ => false)
    || strStartsWith s "rgb" || strStartsWith s "hsl"
  | _ => false

/-- `colorToRGB` from the source: only `#RRGGBB` strings are decoded
(`parseInt` of the three two-character slices); every other color form
falls through to `[0, 0, 0]`. -/
def colorToRGB (color : String) : List JSNum :=
  if strStartsWith color "#" then
    let cs := color.data.drop 1
    [parseIntHex (cs.take 2), parseIntHex ((cs.drop 2).take 2), parseIntHex ((cs.drop 4).take 2)]
  else [.num 0, .num 0, .num 0]

/-- `interpolateColor`: per-channel linear interpolation, `Math.round`,
re-encoded as `rgb(r,g,b)` — no clamping. -/
def interpolateColor (start finish : String) (factor : JSNum) : String :=
  let startRGB := colorToRGB start
  let endRGB := colorToRGB finish
  let r := jround (jinterpJ (startRGB.getD 0 .nan) (endRGB.getD 0 .nan) factor)
  let g := jround (jinterpJ (startRGB.getD 1 .nan) (endRGB.getD 1 .nan) factor)
  let b := jround (jinterpJ (startRGB.getD 2 .nan) (endRGB.getD 2 .nan) factor)
  "rgb(" ++ formatNumber r ++ "," ++ formatNumber g ++ "," ++ formatNumber b ++ ")"

/-- `parseValue`: numbers parse as themselves with an empty unit; anything
else is coerced to a string and matched against `^(-?\d*\.?\d+)(\D*)$`. -/
def parseValue (value : JSVal) : Option (ℚ × String) :=
  match value with
  | .num q => some (q, "")
  | _ => parseNumUnit (jstr value)

/-- `interpolateNumericValues`: parse both sides; with matching units,
interpolate the magnitudes and reattach the unit; otherwise fall back to
the start value while `factor < 1` and the end value otherwise
(false for a NaN factor, so NaN selects the end value). -/
def interpolateNumericValues (start finish : JSVal) (factor : JSNum) : JSVal :=
  match parseValue start, parseValue finish with
  | some sp, some ep =>
    if sp.2 = ep.2 then .str (formatNumber (jinterp sp.1 ep.1 factor) ++ sp.2)
    else if jltB factor (.num 1) then start else finish
  | _, _ => if jltB factor (.num 1) then start else finish

/-- `interpolateValue`: colors first, then plain numbers, then the
numeric-with-unit path. -/
def interpolateValue (start finish : JSVal) (factor : JSNum) : JSVal :=
  if isColor start && isColor finish then
    .str (interpolateColor (jstr start) (jstr finish) factor)
  else
    match start, finish with
    | .num a, .num b => .str (formatNumber (jinterp a b factor))
    | _, _ => interpolateNumericValues start finish factor

/-- `parseTransform`: every `/(\w+)\(([^)]+)\)/g` match has its argument
string split on `/\s*,\s*|\s+/`, each part matched against the numeric
regex with fallback `{value: 0, unit: ""}`; a single part is stored as one
object, several as an array.  Later matches of the same name overwrite. -/
def parseTransform (v : JSVal) : List (String × TArg) :=
  (scanFns (jstr v).data).foldl (fun acc p =>
    let argParts := (jsSplit p.2).map (fun s => (parseNumUnit s).getD (0, ""))
    objInsert acc p.1
      (match argParts with
       | [a] => TArg.one a.1 a.2
       | l => TArg.many l)) []

/-- `parseFilter` body for one match list: `parseValue(arg)` is
destructured without a null check, so an argument with no digits makes the
call throw (`none`). -/
def parseFilterLoop : List (String × String) → List (String × (ℚ × String)) →
    Option (List (String × (ℚ × String)))
  | [], acc => some acc
  | p :: ps, acc =>
    match parseNumUnit p.2 with
    | some vu => parseFilterLoop ps (objInsert acc p.1 vu)
    | none => none

/-- `parseFilter` from the source (throwing modelled as `none`). -/
def parseFilter (v : JSVal) : Option (List (String × (ℚ × String))) :=
  parseFilterLoop (scanFns (jstr v).data) []

/-- `getDefaultFilterUnit` from the source. -/
def getDefaultFilterUnit (func : String) : String :=
  if func = "blur" then "px"
  else if func = "hue-rotate" then "deg"
  else "%"

/-- One iteration of the `interpolateFilter` loop: missing start defaults
to value 0 with the table unit, missing end defaults to the start object,
the value pair is interpolated and re-rendered with the start unit. -/
def filterPiece (sf ef : List (String × (ℚ × String))) (factor : JSNum) (func : String) :
    String :=
  let start := (getProp sf func).getD (0, getDefaultFilterUnit func)
  let endF := (getProp ef func).getD start
  func ++ "(" ++ jstr (interpolateValue (.num start.1) (.num endF.1) factor) ++ start.2 ++ ")"

/-- `interpolateFilter`: union of parsed function names (first-occurrence
order), each rendered by `filterPiece`. -/
def interpolateFilter (sv ev : JSVal) (factor : JSNum) : Option String :=
  match parseFilter sv, parseFilter ev with
  | some sf, some ef =>
    some (String.intercalate " "
      ((jsDedup (sf.map Prod.fst ++ ef.map Prod.fst)).map (filterPiece sf ef factor)))
  | _, _ => none

/-- `List.map` with the element index, as `Array.prototype.map` passes it. -/
def mapIdxGo (f : ℕ → α → β) : ℕ → List α → List β
  | _, [] => []
  | i, x :: l => f i x :: mapIdxGo f (i + 1) l

/-- One iteration of the `interpolateTransform` loop.  A function name
missing from the start map evaluates
`this.isNumericFunction(func)` — a method this class does not define — so
the call throws (`none`). -/
def transformPiece (sf ef : List (String × TArg)) (factor : JSNum) (func : String) :
    Option String :=
  match getProp sf func with
  | none => none
  | some (TArg.many args) =>
    let endVals : List (ℚ × String) :=
      match (getProp ef func).getD (TArg.many args) with
      | .many l => l
      | .one _ _ => []
    some (func ++ "(" ++ String.intercalate ", " (mapIdxGo (fun i arg =>
      let endArg := (endVals.get? i).getD arg
      jstr (interpolateValue (.num arg.1) (.num endArg.1) factor) ++ arg.2) 0 args) ++ ")")
  | some (TArg.one v u) =>
    let endA := (getProp ef func).getD (TArg.one v u)
    let evv : JSVal := match endA with
      | .one w _ => .num w
      | .many l => .arr l
    some (func ++ "(" ++ jstr (interpolateValue (.num v) evv factor) ++ u ++ ")")

/-- Sequence a list of optional results; any `none` (a thrown iteration)
makes the whole loop throw. -/
def optionMapList (f : α → Option β) : List α → Option (List β)
  | [] => some []
  | x :: l =>
    match f x, optionMapList f l with
    | some y, some ys => some (y :: ys)
    | _, _ => none

/-- `interpolateTransform` from the source (throwing modelled as `none`). -/
def interpolateTransform (sv ev : JSVal) (factor : JSNum) : Option String :=
  let sf := parseTransform sv
  let ef := parseTransform ev
  let fns := jsDedup (sf.map Prod.fst ++ ef.map Prod.fst)
  (optionMapList (transformPiece sf ef factor) fns).map (String.intercalate " ")

/-- `extrapolateTransform` from the source: missing start defaults to
`{value: 0, unit: "px"}` unconditionally; multi-argument entries render
without units; the `direction` parameter is accepted but unused. -/
def extrapolateTransform (sv ev : JSVal) (factor : JSNum) (direction : String) : String :=
  let _ := direction
  let sf := parseTransform sv
  let ef := parseTransform ev
  let fns := jsDedup (sf.map Prod.fst ++ ef.map Prod.fst)
  String.intercalate " " (fns.map (fun func =>
    let start := (getProp sf func).getD (TArg.one 0 "px")
    match start with
    | .many args =>
      let endVals : List (ℚ × String) :=
        match (getProp ef func).getD (TArg.many args) with
        | .many l => l
        | .one _ _ => []
      func ++ "(" ++ String.intercalate ", " (mapIdxGo (fun i arg =>
        let endArg := (endVals.get? i).getD arg
        formatNumber (jinterp arg.1 endArg.1 factor)) 0 args) ++ ")"
    | .one v u =>
      let endA := (getProp ef func).getD (TArg.one v u)
      let endNum : JSNum := match endA with
        | .one w _ => .num w
        | .many _ => .nan
      func ++ "(" ++ formatNumber (jadd (.num v) (jmul (jsub endNum (.num v)) factor)) ++ u ++ ")"))

/-- A keyframe record: a percent and a styles object. -/
structure Keyframe where
  percent : ℚ
  styles : List (String × JSVal)
deriving DecidableEq, Repr, Inhabited

/-- Stable insertion of a keyframe into an ascending-by-percent list
(after all strictly smaller percents, before equal ones inserted earlier
from later positions). -/
def insertKf (a : Keyframe) : List Keyframe → List Keyframe
  | [] => [a]
  | b :: l => if b.percent < a.percent then b :: insertKf a l else a :: b :: l

/-- `keyframes.sort((a, b) => a.percent - b.percent)`: the stable
ascending sort by percent (JavaScript `Array.prototype.sort` is stable,
and the stable sorted permutation is unique, so any stable sort models
it). -/
def sortKeyframes (keyframes : List Keyframe) : List Keyframe :=
  keyframes.foldr insertKf []

/-- The fixed discrete-property list from the constructor. -/
def discreteProperties : List String :=
  ["display", "position", "float", "clear", "visibility", "overflow", "overflow-x", "overflow-y",
   "flex-direction", "flex-wrap", "justify-content", "align-items", "align-content", "order",
   "grid-template-columns", "grid-template-rows", "grid-template-areas", "grid-auto-flow",
   "z-index",
   "table-layout", "empty-cells", "caption-side",
   "list-style-type", "list-style-position",
   "pointer-events", "user-select", "box-sizing", "resize",
   "text-align", "text-transform", "white-space", "word-break", "word-wrap", "font-style",
   "font-weight", "font-variant",
   "background-repeat", "background-attachment", "background-position",
   "border-style", "border-collapse",
   "content",
   "page-break-before", "page-break-after", "page-break-inside"]

/-- `this.keyframes.filter(kf => prop in kf.styles)`. -/
def relevantKeyframes (kfs : List Keyframe) (prop : String) : List Keyframe :=
  kfs.filter (fun kf => (getProp kf.styles prop).isSome)

/-- `findSurroundingKeyframes`: the first adjacent pair bracketing the
percent, defaulting to (first, last). -/
def findSurroundingKeyframes (keyframes : List Keyframe) (percent : ℚ) : Keyframe × Keyframe :=
  match (keyframes.zip keyframes.tail).find?
      (fun p => decide (p.1.percent ≤ percent) && decide (percent ≤ p.2.percent)) with
  | some p => p
  | none => (keyframes.headD default, keyframes.getD (keyframes.length - 1) default)

/-- `handleExtrapolation`: unguarded factor division; transforms go to
`extrapolateTransform`, everything else to `interpolateNumericValues`
(so colors and filters get no special handling out of range). -/
def handleExtrapolation (prop : String) (percent : ℚ) (startFrame endFrame : Keyframe)
    (direction : String) : JSVal :=
  let factor := jdiv (.num (percent - startFrame.percent)) (.num (endFrame.percent - startFrame.percent))
  let startValue := (getProp startFrame.styles prop).getD .null
  let endValue := (getProp endFrame.styles prop).getD .null
  if prop = "transform" then .str (extrapolateTransform startValue endValue factor direction)
  else interpolateNumericValues startValue endValue factor

/-- `handleInterpolation`: unguarded factor division (`0/0 = NaN` for
coincident percents); transform and filter special cases, then
`interpolateValue`. -/
def handleInterpolation (prop : String) (percent : ℚ) (startFrame endFrame : Keyframe) :
    Option JSVal :=
  let factor := jdiv (.num (percent - startFrame.percent)) (.num (endFrame.percent - startFrame.percent))
  let startValue := (getProp startFrame.styles prop).getD .null
  let endValue := (getProp endFrame.styles prop).getD .null
  if prop = "transform" then (interpolateTransform startValue endValue factor).map JSVal.str
  else if prop = "filter" then (interpolateFilter startValue endValue factor).map JSVal.str
  else some (interpolateValue startValue endValue factor)

/-- `interpolateDiscreteProperty`: `reduce` picking the latest keyframe at
or before the percent with a strictly larger percent than the accumulator
(the first relevant keyframe if none qualifies). -/
def interpolateDiscreteProperty (kfs : List Keyframe) (prop : String) (percent : ℚ) : JSVal :=
  match relevantKeyframes kfs prop with
  | [] => .null
  | k0 :: rest =>
    let active := rest.foldl (fun prev curr =>
      if curr.percent ≤ percent ∧ prev.percent < curr.percent then curr else prev) k0
    (getProp active.styles prop).getD .null

/-- `interpolateProperty` from the source. -/
def interpolateProperty (kfs : List Keyframe) (prop : String) (percent : ℚ) : Option JSVal :=
  if discreteProperties.contains prop then some (interpolateDiscreteProperty kfs prop percent)
  else
    let r := relevantKeyframes kfs prop
    if r = [] then some .null
    else
      let firstFrame := r.headD default
      let lastFrame := r.getD (r.length - 1) default
      if percent < firstFrame.percent then
        some (handleExtrapolation prop percent firstFrame (r.getD 1 firstFrame) "below")
      else if lastFrame.percent < percent then
        some (handleExtrapolation prop percent (r.getD (r.length - 2) lastFrame) lastFrame "above")
      else
        let sur := findSurroundingKeyframes r percent
        handleInterpolation prop percent sur.1 sur.2

/-- The `for (const prop of allProperties)` loop of `calculateTween`:
builds the result object in iteration order, aborting (`none`) if any
property interpolation throws. -/
def tweenLoop (kfs : List Keyframe) (percent : ℚ) : List String → Option (List (String × JSVal))
  | [] => some []
  | prop :: props =>
    match interpolateProperty kfs prop percent, tweenLoop kfs percent props with
    | some v, some rest => some ((prop, v) :: rest)
    | _, _ => none

/-- `calculateTween(position)` over a stored keyframe list. -/
def calculateTween (kfs : List Keyframe) (position : ℚ) : Option (List (String × JSVal)) :=
  let percent := position * 100
  let allProperties := jsDedup (kfs.foldr (fun kf acc => kf.styles.map Prod.fst ++ acc) [])
  tweenLoop kfs percent allProperties

/-- The calculator's mutable state: just the stored keyframe list
(`discreteProperties` is a constant). -/
structure TweenCalculator where
  keyframes : List Keyframe
deriving DecidableEq, Repr

/-- `setKeyframes(keyframes)`: wholesale replacement by the sorted list;
nothing of the previous state survives. -/
def TweenCalculator.setKeyframes (_tc : TweenCalculator) (keyframes : List Keyframe) :
    TweenCalculator :=
  { keyframes := sortKeyframes keyframes }

/-- The constructor: it only calls `setKeyframes` — there is no
validation, so construction from any array succeeds (`Option` records
that a constructor may in principle surface an error; this one never
does). -/
def construct (keyframes : List Keyframe) : Option TweenCalculator :=
  some (TweenCalculator.setKeyframes { keyframes := [] } keyframes)

/-- `calculateTween` as a method on the state. -/
def TweenCalculator.calculateTween (tc : TweenCalculator) (position : ℚ) :
    Option (List (String × JSVal)) :=
  Tween.calculateTween tc.keyframes position

/-- Selection policy the discrete `reduce` implements on a sorted relevant
list (stated for comparison): the earliest relevant keyframe achieving the
greatest percent that is at most the requested percent; the first relevant
keyframe when the requested percent precedes them all. -/
def discreteStepSpec (r : List Keyframe) (percent : ℚ) : Option Keyframe :=
  match r.filter (fun k => decide (k.percent ≤ percent)) with
  | [] => r.head?
  | q0 :: qs => r.find? (fun k => decide (k.percent = (List.getLastD qs q0).percent))

/-! ## Helper lemmas -/

theorem jinterp_num (a b q : ℚ) : jinterp a b (.num q) = .num (a + (b - a) * q) := by
  simp [jinterp, jadd, jmul]

theorem insertKf_perm (a : Keyframe) (l : List Keyframe) :
    List.Perm (insertKf a l) (a :: l) := by
  induction l with
  | nil => simp [insertKf]
  | cons b t ih =>
    simp only [insertKf]
    split
    · exact (ih.cons b).trans (List.Perm.swap a b t)
    · exact List.Perm.refl _

theorem sortKeyframes_perm (l : List Keyframe) : List.Perm (sortKeyframes l) l := by
  induction l with
  | nil => simp [sortKeyframes]
  | cons x t ih =>
    have : sortKeyframes (x :: t) = insertKf x (sortKeyframes t) := rfl
    rw [this]
    exact (insertKf_perm x (sortKeyframes t)).trans (ih.cons x)

theorem mem_insertKf {x a : Keyframe} {l : List Keyframe} (h : x ∈ insertKf a l) :
    x = a ∨ x ∈ l :=
  by simpa using (insertKf_perm a l).mem_iff.mp h

theorem insertKf_pairwise (a : Keyframe) {l : List Keyframe}
    (h : l.Pairwise (fun x y => x.percent ≤ y.percent)) :
    (insertKf a l).Pairwise (fun x y => x.percent ≤ y.percent) := by
  induction l with
  | nil => simp [insertKf]
  | cons b t ih =>
    rcases List.pairwise_cons.mp h with ⟨hb, ht⟩
    simp only [insertKf]
    split
    · rename_i hba
      refine List.pairwise_cons.mpr ⟨?_, ih ht⟩
      intro x hx
      rcases mem_insertKf hx with rfl | hx
      · exact le_of_lt hba
      · exact hb x hx
    · rename_i hba
      refine List.pairwise_cons.mpr ⟨?_, h⟩
      intro x hx
      rcases List.mem_cons.mp hx with rfl | hx
      · exact le_of_not_lt hba
      · exact le_trans (le_of_not_lt hba) (hb x hx)

theorem sortKeyframes_pairwise (l : List Keyframe) :
    (sortKeyframes l).Pairwise (fun x y => x.percent ≤ y.percent) := by
  induction l with
  | nil => simp [sortKeyframes]
  | cons x t ih => exact insertKf_pairwise x ih

theorem mem_jsDedup_aux (l : List String) (acc : List String) (p : String) :
    p ∈ l.foldl (fun acc x => if x ∈ acc then acc else acc ++ [x]) acc ↔ p ∈ acc ∨ p ∈ l := by
  induction l generalizing acc with
  | nil => simp
  | cons x t ih =>
    simp only [List.foldl_cons]
    split
    · rename_i hx
      rw [ih]
      constructor
      · rintro (h | h)
        · exact Or.inl h
        · exact Or.inr (List.mem_cons_of_mem x h)
      · rintro (h | h)
        · exact Or.inl h
        · rcases List.mem_cons.mp h with rfl | h
          · exact Or.inl hx
          · exact Or.inr h
    · rw [ih]
      simp only [List.mem_append, List.mem_singleton, List.mem_cons]
      tauto

theorem mem_jsDedup {l : List String} {p : String} : p ∈ jsDedup l ↔ p ∈ l := by
  unfold jsDedup
  rw [mem_jsDedup_aux]
  simp

theorem getProp_isSome_iff {m : List (String × α)} {k : String} :
    (getProp m k).isSome ↔ k ∈ m.map Prod.fst := by
  induction m with
  | nil => simp [getProp]
  | cons p t ih =>
    obtain ⟨k', v⟩ := p
    simp only [getProp, List.map_cons, List.mem_cons]
    split
    · rename_i h
      simp [h]
    · rename_i h
      rw [ih]
      constructor
      · exact Or.inr
      · rintro (rfl | hm)
        · exact absurd rfl h
        · exact hm

theorem getProp_some_mem {m : List (String × α)} {k : String} {v : α}
    (h : getProp m k = some v) : k ∈ m.map Prod.fst :=
  getProp_isSome_iff.mp (by simp [h])

theorem optionMapList_of_forall {f : α → Option β} {g : α → β} :
    ∀ {l : List α}, (∀ x ∈ l, f x = some (g x)) → optionMapList f l = some (l.map g)
  | [], _ => rfl
  | x :: t, h => by
    have hx := h x (List.mem_cons_self x t)
    have ht : optionMapList f t = some (t.map g) :=
      optionMapList_of_forall (fun y hy => h y (List.mem_cons_of_mem x hy))
    simp [optionMapList, hx, ht]

theorem optionMapList_none {f : α → Option β} {x : α} :
    ∀ {l : List α}, x ∈ l → f x = none → optionMapList f l = none := by
  intro l
  induction l with
  | nil => intro h; cases h
  | cons y t ih =>
    intro hm hx
    rcases List.mem_cons.mp hm with rfl | hm
    · simp [optionMapList, hx]
    · simp only [optionMapList, ih hm hx]
      cases f y <;> rfl

theorem tweenLoop_keys {kfs : List Keyframe} {percent : ℚ} :
    ∀ {props : List String} {m : List (String × JSVal)},
      tweenLoop kfs percent props = some m → m.map Prod.fst = props := by
  intro props
  induction props with
  | nil => intro m h; simp [tweenLoop] at h; simp [← h]
  | cons p t ih =>
    intro m h
    simp only [tweenLoop] at h
    cases hv : interpolateProperty kfs p (percent) with
    | none => rw [hv] at h; simp at h
    | some v =>
      rw [hv] at h
      cases hr : tweenLoop kfs percent t with
      | none => rw [hr] at h; simp at h
      | some rest =>
        rw [hr] at h
        simp only [Option.some.injEq] at h
        subst h
        simp [ih hr]

theorem stripNegSign_of_ne {c : Char} {t : List Char} (h : c ≠ '-') :
    stripNegSign (c :: t) = (false, c :: t) := by
  unfold stripNegSign
  split
  · rename_i heq
    cases heq
    exact absurd rfl h
  · rfl

/-- If a string begins with a character that is not a sign, a digit, or a
dot, the numeric regex cannot match it: either the string holds no digit
at all, or the matched numeric segment would have to contain that first
character. -/
theorem parseNumUnit_none_of_head {s : String} {c : Char} {t : List Char}
    (hd : s.data = c :: t) (hne : c ≠ '-') (hnd : c.isDigit = false) (hnp : c ≠ '.') :
    parseNumUnit s = none := by
  have h1 : stripNegSign (c :: t) = (false, c :: t) := stripNegSign_of_ne hne
  unfold parseNumUnit
  rw [hd]
  simp only [h1]
  cases hk : (c :: t).length -
      ((List.takeWhile (fun c => !c.isDigit) (c :: t).reverse).reverse).length with
  | zero =>
    simp [hk]
  | succ k =>
    have hc : (c.isDigit || c == '.') = false := by simp [hnd, hnp]
    simp [hk, List.take_succ_cons, List.all_cons, hc]

/-- A value that parses under the numeric regex is never classified as a
color: every color form starts with `#`, `r`, or `h`, which the anchored
numeric match rejects. -/
theorem isColor_false_of_parseValue {v : JSVal} {pr : ℚ × String}
    (h : parseValue v = some pr) : isColor v = false := by
  cases v with
  | num q => rfl
  | null => rfl
  | arr l => rfl
  | str s =>
    simp only [parseValue, jstr] at h
    cases hs : s.data with
    | nil =>
      simp [isColor, strStartsWith, hs, List.isPrefixOf]
    | cons c t =>
      have hhead : c = '-' ∨ c.isDigit = true ∨ c = '.' := by
        by_contra hcon
        push_neg at hcon
        obtain ⟨h1, h2, h3⟩ := hcon
        rw [parseNumUnit_none_of_head hs h1 (by simpa using h2) h3] at h
        cases h
      have hne : ∀ x : Char, x ≠ '-' → x.isDigit = false → x ≠ '.' → c ≠ x := by
        intro x hx1 hx2 hx3 hcx
        subst hcx
        rcases hhead with h' | h' | h'
        · exact hx1 h'
        · rw [hx2] at h'; cases h'
        · exact hx3 h'
      simp only [isColor, Bool.or_eq_false_iff]
      refine ⟨⟨?_, ?_⟩, ?_⟩
      · rw [hs]
        split
        · rename_i heq
          exfalso
          have hce : c = '#' := by
            have := (List.cons.injEq _ _ _ _).mp heq
            exact this.1
          exact hne '#' (by decide) (by decide) (by decide) hce
        · rfl
      · have hcr : ('r' == c) = false := by
          refine beq_eq_false_iff_ne.mpr ?_
          intro hrc
          exact hne 'r' (by decide) (by decide) (by decide) hrc.symm
        simp [strStartsWith, hs, List.isPrefixOf, hcr]
      · have hch : ('h' == c) = false := by
          refine beq_eq_false_iff_ne.mpr ?_
          intro hrc
          exact hne 'h' (by decide) (by decide) (by decide) hrc.symm
        simp [strStartsWith, hs, List.isPrefixOf, hch]

theorem jinterp_nan (a b : ℚ) : jinterp a b .nan = .nan := by
  simp [jinterp, jadd, jmul]

theorem str_append_empty (s : String) : s ++ "" = s := by
  cases s
  simp [String.append]

theorem interpolateNumericValues_parsed {s1 s2 : JSVal} {v1 v2 : ℚ} {u : String} (f : JSNum)
    (h1 : parseValue s1 = some (v1, u)) (h2 : parseValue s2 = some (v2, u)) :
    interpolateNumericValues s1 s2 f = .str (formatNumber (jinterp v1 v2 f) ++ u) := by
  unfold interpolateNumericValues
  rw [h1, h2]
  simp

theorem parseValue_num {a : ℚ} {v : ℚ} {u : String}
    (h : parseValue (.num a) = some (v, u)) : v = a ∧ u = "" := by
  simp only [parseValue, Option.some.injEq, Prod.mk.injEq] at h
  exact ⟨h.1.symm, h.2.symm⟩

theorem interpolateValue_parsed {s1 s2 : JSVal} {v1 v2 : ℚ} {u : String} (f : JSNum)
    (h1 : parseValue s1 = some (v1, u)) (h2 : parseValue s2 = some (v2, u)) :
    interpolateValue s1 s2 f = .str (formatNumber (jinterp v1 v2 f) ++ u) := by
  have hc1 := isColor_false_of_parseValue h1
  unfold interpolateValue
  rw [hc1]
  simp only [Bool.false_and, Bool.false_eq_true, if_false]
  cases s1 with
  | num a =>
    cases s2 with
    | num b =>
      obtain ⟨hv1, hu⟩ := parseValue_num h1
      obtain ⟨hv2, _⟩ := parseValue_num h2
      subst hv1; subst hv2; subst hu
      rw [str_append_empty]
    | str s => exact interpolateNumericValues_parsed f h1 h2
    | null => exact interpolateNumericValues_parsed f h1 h2
    | arr l => exact interpolateNumericValues_parsed f h1 h2
  | str s =>
    cases s2 <;> exact interpolateNumericValues_parsed f h1 h2
  | null =>
    cases s2 <;> exact interpolateNumericValues_parsed f h1 h2
  | arr l =>
    cases s2 <;> exact interpolateNumericValues_parsed f h1 h2

theorem mem_stylesFold {l : List Keyframe} {p : String} :
    p ∈ l.foldr (fun kf acc => kf.styles.map Prod.fst ++ acc) [] ↔
      ∃ kf ∈ l, p ∈ kf.styles.map Prod.fst := by
  induction l with
  | nil => simp
  | cons kf t ih =>
    simp only [List.foldr_cons, List.mem_append, ih, List.mem_cons]
    constructor
    · rintro (h | ⟨kf', hm, hp⟩)
      · exact ⟨kf, Or.inl rfl, h⟩
      · exact ⟨kf', Or.inr hm, hp⟩
    · rintro ⟨kf', rfl | hm, hp⟩
      · exact Or.inl hp
      · exact Or.inr ⟨kf', hm, hp⟩

/-! ## Claim theorems -/

/-- C1: the claim states that `calculateTween` always completes and
returns a mapping without raising an exception.  The code violates this:
for keyframes whose `filter` values hold a function whose argument has no
digits (for example `url(a)`), `parseFilter` destructures the `null`
result of `parseValue` and the whole evaluation throws a TypeError
(modelled as `none`). -/
theorem calculateTween_throws_on_url_filter :
    calculateTween [⟨0, [("filter", .str "url(a)")]⟩, ⟨100, [("filter", .str "url(b)")]⟩]
      (1/2) = none := by
  decide

/-- C2: the claim states that a single-keyframe list returns that
keyframe's styles unchanged for every progress value.  The code has no
single-keyframe guard: at progress 0.5 the extrapolation factor is
`50 / 0 = Infinity`, the interpolation computes `10 + 0 * Infinity = NaN`,
and the stored `"10px"` comes back as the string `"NaNpx"`. -/
theorem single_keyframe_yields_nan :
    calculateTween [⟨0, [("width", .str "10px")]⟩] (1/2) = some [("width", .str "NaNpx")] ∧
    calculateTween [⟨0, [("width", .str "10px")]⟩] (1/2) ≠ some [("width", .str "10px")] := by
  decide

/-- C3 counterexample: on the claim's own example — start
`translateX(0px)`, end `translateX(10px) rotate(10deg)`, factor 0.5 —
`rotate` is missing from the start side, so the loop evaluates
`this.isNumericFunction`, a method this class does not define, and the
call throws (`none`) instead of producing a `rotate` entry. -/
theorem transform_union_cex :
    interpolateTransform (.str "translateX(0px)") (.str "translateX(10px) rotate(10deg)")
      (.num (1/2)) = none := by
  decide

/-- C4 counterexample: with two keyframes sharing percent 50 and a
requested percent of 50, the bracketing pair has equal percents; the
factor division is not guarded, `0/0 = NaN`, and the result is
`"NaNpx"` — not the start keyframe's `"10px"` the claim requires. -/
theorem equal_percent_bracket_cex :
    calculateTween [⟨50, [("width", .str "10px")]⟩, ⟨50, [("width", .str "20px")]⟩] (1/2) =
      some [("width", .str "NaNpx")] ∧
    calculateTween [⟨50, [("width", .str "10px")]⟩, ⟨50, [("width", .str "20px")]⟩] (1/2) ≠
      some [("width", .str "10px")] := by
  decide

/-- C6 counterexample: two `display` keyframes both at percent 0 (a tie);
at requested percent 50 the claim's "last relevant keyframe with percent ≤
requested" is the second one (`"none"`), but the `reduce` requires a
strict percent increase to move on, so it keeps the first (`"block"`). -/
theorem discrete_tie_cex :
    calculateTween [⟨0, [("display", .str "block")]⟩, ⟨0, [("display", .str "none")]⟩] (1/2) =
      some [("display", .str "block")] ∧
    calculateTween [⟨0, [("display", .str "block")]⟩, ⟨0, [("display", .str "none")]⟩] (1/2) ≠
      some [("display", .str "none")] := by
  decide

/-- C7 counterexample: both endpoints are the same green —
`hsl(120,100%,50%)` and `#00ff00` — so the claimed HSL→RGB conversion
would make every interpolant `rgb(0,255,0)`.  The code's `colorToRGB`
only decodes hex and maps the HSL endpoint to `[0,0,0]`, giving
`rgb(0,128,0)` at progress 0.5. -/
theorem color_hsl_cex :
    calculateTween [⟨0, [("color", .str "hsl(120,100%,50%)")]⟩,
        ⟨100, [("color", .str "#00ff00")]⟩] (1/2) =
      some [("color", .str "rgb(0,128,0)")] ∧
    calculateTween [⟨0, [("color", .str "hsl(120,100%,50%)")]⟩,
        ⟨100, [("color", .str "#00ff00")]⟩] (1/2) ≠
      some [("color", .str "rgb(0,255,0)")] := by
  decide

/-- C8 counterexample: the claim says construction fails whenever the
argument is not a non-empty sequence of valid keyframe records; the
constructor performs no validation, so the empty list is accepted and
stored. -/
theorem construct_accepts_empty :
    construct ([] : List Keyframe) = some ⟨[]⟩ ∧
    construct ([] : List Keyframe) ≠ none := by
  decide

/-- C8 amended: construction never fails on an array argument — it only
sorts (stably, ascending by percent) and stores the list; malformed or
empty input is not surfaced at construction time. -/
theorem construct_no_validation (keyframes : List Keyframe) :
    construct keyframes = some ⟨sortKeyframes keyframes⟩ ∧
    (sortKeyframes keyframes).Pairwise (fun a b => a.percent ≤ b.percent) ∧
    List.Perm (sortKeyframes keyframes) keyframes :=
  ⟨rfl, sortKeyframes_pairwise keyframes, sortKeyframes_perm keyframes⟩

/-- C10 counterexample: the filter parser's `\w+` cannot match a hyphen,
so the CSS function `hue-rotate(90deg)` parses as `rotate` with argument
`90deg`; being absent from the start side it gets baseline 0 with default
unit `%` (not the claimed `deg`), producing `rotate(45%)` at progress
0.5 instead of an interpolated `hue-rotate(45deg)` entry. -/
theorem filter_hue_rotate_cex :
    calculateTween [⟨0, [("filter", .str "blur(10px)")]⟩,
        ⟨100, [("filter", .str "hue-rotate(90deg)")]⟩] (1/2) =
      some [("filter", .str "blur(10px) rotate(45%)")] ∧
    calculateTween [⟨0, [("filter", .str "blur(10px)")]⟩,
        ⟨100, [("filter", .str "hue-rotate(90deg)")]⟩] (1/2) ≠
      some [("filter", .str "blur(10px) hue-rotate(45deg)")] := by
  decide

/-- C9: `setKeyframes` twice fully replaces the state — the result equals
setting only the second list — and whenever a subsequent evaluation
returns a mapping, its key set is exactly the set of property names
occurring in the second list's keyframes, independent of the first list. -/
theorem setKeyframes_replaces (tc : TweenCalculator) (A B : List Keyframe) (pos : ℚ) :
    (tc.setKeyframes A).setKeyframes B = tc.setKeyframes B ∧
    ∀ m, ((tc.setKeyframes A).setKeyframes B).calculateTween pos = some m →
      ∀ p : String, p ∈ m.map Prod.fst ↔ ∃ kf ∈ B, (getProp kf.styles p).isSome := by
  refine ⟨rfl, ?_⟩
  intro m hm p
  simp only [TweenCalculator.calculateTween, calculateTween, TweenCalculator.setKeyframes] at hm
  have hkeys := tweenLoop_keys hm
  rw [hkeys, mem_jsDedup, mem_stylesFold]
  constructor
  · rintro ⟨kf, hkf, hp⟩
    exact ⟨kf, (sortKeyframes_perm B).mem_iff.mp hkf, getProp_isSome_iff.mpr hp⟩
  · rintro ⟨kf, hkf, hp⟩
    exact ⟨kf, (sortKeyframes_perm B).mem_iff.mpr hkf, getProp_isSome_iff.mp hp⟩

/-- C9 witness: a concrete double replacement — the first set's `left`
property cannot appear; the second set's `width` is exactly the key set. -/
theorem setKeyframes_replaces_witness :
    ("width" ∈ ([("width", JSVal.str "NaNpx")] : List (String × JSVal)).map Prod.fst) ↔
      ∃ kf ∈ [Keyframe.mk 0 [("width", JSVal.str "10px")]], (getProp kf.styles "width").isSome :=
  (setKeyframes_replaces ⟨[]⟩ [⟨0, [("left", .str "1px")]⟩] [⟨0, [("width", .str "10px")]⟩]
      (1/2)).2 [("width", .str "NaNpx")] (by decide) "width"

/-- C4 amended: the factor division is not guarded.  When the two
bracketing keyframes both sit at the requested percent (equal percents),
the factor is `0/0 = NaN`, and a property whose two values parse with the
same unit evaluates to the string `"NaN"` followed by that unit — not the
start keyframe's value. -/
theorem equal_percent_bracket_nan (p : ℚ) (prop : String) (s1 s2 : JSVal)
    (v1 v2 : ℚ) (u : String)
    (hnd : discreteProperties.contains prop = false)
    (ht : prop ≠ "transform") (hf : prop ≠ "filter")
    (h1 : parseValue s1 = some (v1, u)) (h2 : parseValue s2 = some (v2, u)) :
    calculateTween [⟨p, [(prop, s1)]⟩, ⟨p, [(prop, s2)]⟩] (p / 100) =
      some [(prop, .str ("NaN" ++ u))] := by
  have hp : p / 100 * 100 = p := div_mul_cancel₀ p (by norm_num)
  have hrel : relevantKeyframes [⟨p, [(prop, s1)]⟩, ⟨p, [(prop, s2)]⟩] prop =
      [⟨p, [(prop, s1)]⟩, ⟨p, [(prop, s2)]⟩] := by
    simp [relevantKeyframes, getProp]
  have hget1 : getProp [(prop, s1)] prop = some s1 := by simp [getProp]
  have hget2 : getProp [(prop, s2)] prop = some s2 := by simp [getProp]
  have hiv := interpolateValue_parsed .nan h1 h2
  have hfac : jdiv (.num (p - p)) (.num (p - p)) = .nan := by
    simp [sub_self, jdiv]
  have hip : interpolateProperty [⟨p, [(prop, s1)]⟩, ⟨p, [(prop, s2)]⟩] prop p =
      some (.str ("NaN" ++ u)) := by
    have hfind : findSurroundingKeyframes [⟨p, [(prop, s1)]⟩, ⟨p, [(prop, s2)]⟩] p =
        (⟨p, [(prop, s1)]⟩, ⟨p, [(prop, s2)]⟩) := by
      simp [findSurroundingKeyframes, List.find?]
    simp only [interpolateProperty, hnd, Bool.false_eq_true, if_false, hrel]
    rw [if_neg (by simp)]
    simp only [List.headD, List.getD, List.length_cons, List.length_nil]
    rw [if_neg (lt_irrefl p)]
    norm_num
    rw [hfind]
    simp only [handleInterpolation, hget1, hget2, Option.getD_some, hfac]
    rw [if_neg ht, if_neg hf, hiv, jinterp_nan]
    rfl
  have hdd : jsDedup [prop, prop] = [prop] := by
    simp [jsDedup]
  simp only [calculateTween, hp, List.foldr_cons, List.foldr_nil, List.map_cons,
    List.map_nil, List.append_nil, List.singleton_append, hdd, tweenLoop, hip]

/-- C4 amended witness: two `width` keyframes at percent 50, evaluated at
progress 0.5, produce `"NaNpx"`. -/
theorem equal_percent_bracket_nan_witness :
    calculateTween [⟨50, [("width", .str "10px")]⟩, ⟨50, [("width", .str "20px")]⟩]
      ((50 : ℚ) / 100) = some [("width", .str "NaNpx")] :=
  (equal_percent_bracket_nan 50 "width" (.str "10px") (.str "20px") 10 20 "px"
    (by decide) (by decide) (by decide) (by decide) (by decide)).trans (by decide)

/-- C5: out-of-range percents extrapolate linearly.  Above the last
relevant keyframe, the code uses the last two relevant keyframes and the
same linear factor formula (factor > 1, not clamped); below the first, the
first two.  Stated for a property whose two boundary values parse with a
common unit. -/
theorem extrapolation_linear (kfs : List Keyframe) (prop : String) (percent : ℚ)
    (hnd : discreteProperties.contains prop = false)
    (hnt : prop ≠ "transform")
    (hs : kfs.Pairwise (fun a b => a.percent ≤ b.percent)) :
    (∀ pre k1 k2 v1 v2 u,
      relevantKeyframes kfs prop = pre ++ [k1, k2] →
      parseValue ((getProp k1.styles prop).getD .null) = some (v1, u) →
      parseValue ((getProp k2.styles prop).getD .null) = some (v2, u) →
      k2.percent < percent →
      interpolateProperty kfs prop percent =
        some (.str (formatNumber (jinterp v1 v2
          (jdiv (.num (percent - k1.percent)) (.num (k2.percent - k1.percent)))) ++ u))) ∧
    (∀ k1 k2 rest v1 v2 u,
      relevantKeyframes kfs prop = k1 :: k2 :: rest →
      parseValue ((getProp k1.styles prop).getD .null) = some (v1, u) →
      parseValue ((getProp k2.styles prop).getD .null) = some (v2, u) →
      percent < k1.percent →
      interpolateProperty kfs prop percent =
        some (.str (formatNumber (jinterp v1 v2
          (jdiv (.num (percent - k1.percent)) (.num (k2.percent - k1.percent)))) ++ u))) := by
  constructor
  · intro pre k1 k2 v1 v2 u hr h1 h2 hgt
    have hsorted : (relevantKeyframes kfs prop).Pairwise (fun a b => a.percent ≤ b.percent) :=
      List.Pairwise.sublist (List.filter_sublist kfs) hs
    rw [hr] at hsorted
    have hhead : ((pre ++ [k1, k2]).headD default).percent ≤ k2.percent := by
      cases pre with
      | nil =>
        have h' : List.Pairwise (fun a b : Keyframe => a.percent ≤ b.percent) [k1, k2] := by
          simpa using hsorted
        simp only [List.nil_append, List.headD_cons]
        exact (List.pairwise_cons.mp h').1 k2 (by simp)
      | cons p0 pt =>
        have h' := List.pairwise_append.mp hsorted
        simp only [List.cons_append, List.headD_cons]
        exact h'.2.2 p0 (List.mem_cons_self _ _) k2 (by simp)
    have hlast : (pre ++ [k1, k2]).getD ((pre ++ [k1, k2]).length - 1) default = k2 := by
      rw [List.getD_eq_getElem?_getD]
      have hl : (pre ++ [k1, k2]).length = pre.length + 2 := by simp
      rw [hl]
      have he : pre.length + 2 - 1 = pre.length + 1 := by omega
      rw [he, List.getElem?_append_right (by omega)]
      have he2 : pre.length + 1 - pre.length = 1 := by omega
      rw [he2]
      rfl
    have hk1e : (pre ++ [k1, k2]).getD ((pre ++ [k1, k2]).length - 2) k2 = k1 := by
      rw [List.getD_eq_getElem?_getD]
      have hl : (pre ++ [k1, k2]).length = pre.length + 2 := by simp
      rw [hl]
      have he : pre.length + 2 - 2 = pre.length := by omega
      rw [he, List.getElem?_append_right (le_refl _)]
      have he2 : pre.length - pre.length = 0 := by omega
      rw [he2]
      rfl
    simp only [interpolateProperty, hnd, Bool.false_eq_true, if_false, hr]
    rw [if_neg (by simp : ¬(pre ++ [k1, k2] = []))]
    rw [if_neg (not_lt.mpr (le_trans hhead (le_of_lt hgt)))]
    rw [hlast, if_pos hgt, hk1e]
    simp only [handleExtrapolation]
    rw [if_neg hnt, interpolateNumericValues_parsed _ h1 h2]
  · intro k1 k2 rest v1 v2 u hr h1 h2 hlt
    simp only [interpolateProperty, hnd, Bool.false_eq_true, if_false, hr]
    rw [if_neg (by simp : ¬(k1 :: k2 :: rest = []))]
    simp only [List.headD_cons]
    rw [if_pos hlt]
    have hg : (k1 :: k2 :: rest).getD 1 k1 = k2 := rfl
    rw [hg]
    simp only [handleExtrapolation]
    rw [if_neg hnt, interpolateNumericValues_parsed _ h1 h2]

theorem getLastD_mem (l : List Keyframe) (d : Keyframe) : l.getLastD d ∈ d :: l := by
  induction l generalizing d with
  | nil => simp [List.getLastD]
  | cons x xs ih =>
    rw [List.getLastD_cons]
    exact List.mem_cons_of_mem d (ih x)

/-- The discrete `reduce` on a sorted relevant list implements the
amended step policy `discreteStepSpec`: it lands on the earliest keyframe
achieving the greatest percent that is at most the requested percent, or
on the first keyframe when none qualifies. -/
theorem discreteFold_spec (percent : ℚ) :
    ∀ (l : List Keyframe) (k0 : Keyframe),
      (k0 :: l).Pairwise (fun a b => a.percent ≤ b.percent) →
      discreteStepSpec (k0 :: l) percent =
        some (l.foldl (fun prev curr =>
          if curr.percent ≤ percent ∧ prev.percent < curr.percent then curr else prev) k0) := by
  intro l
  induction l with
  | nil =>
    intro k0 _
    by_cases h : k0.percent ≤ percent
    · simp [discreteStepSpec, List.filter_cons, h, List.find?, List.getLastD]
    · simp [discreteStepSpec, List.filter_cons, h]
  | cons c t ih =>
    intro k0 hp
    have h0 := List.pairwise_cons.mp hp
    have h0c : k0.percent ≤ c.percent := h0.1 c (List.mem_cons_self _ _)
    have h0t : ∀ x ∈ t, k0.percent ≤ x.percent := fun x hx => h0.1 x (List.mem_cons_of_mem c hx)
    have hct_pw := h0.2
    have hct := (List.pairwise_cons.mp hct_pw).1
    have ht_pw := (List.pairwise_cons.mp hct_pw).2
    rw [List.foldl_cons]
    by_cases hcond : c.percent ≤ percent ∧ k0.percent < c.percent
    · rw [if_pos hcond, ← ih c hct_pw]
      have hk0p : k0.percent ≤ percent := le_trans (le_of_lt hcond.2) hcond.1
      have hcm : c.percent ≤ ((t.filter (fun k => decide (k.percent ≤ percent))).getLastD c).percent := by
        rcases List.mem_cons.mp
            (getLastD_mem (t.filter (fun k => decide (k.percent ≤ percent))) c) with he | hm
        · rw [he]
        · exact hct _ (List.mem_of_mem_filter hm)
      have hk0m : ¬ k0.percent =
          ((t.filter (fun k => decide (k.percent ≤ percent))).getLastD c).percent :=
        ne_of_lt (lt_of_lt_of_le hcond.2 hcm)
      simp only [discreteStepSpec, List.filter_cons, hk0p, hcond.1, decide_True, if_true,
        List.getLastD_cons, List.find?_cons, hk0m, decide_False]
    · rw [if_neg hcond, ← ih k0 (List.pairwise_cons.mpr ⟨h0t, ht_pw⟩)]
      by_cases hcp : c.percent ≤ percent
      · have hnk : ¬ k0.percent < c.percent := fun h => hcond ⟨hcp, h⟩
        have hce : c.percent = k0.percent := le_antisymm (not_lt.mp hnk) h0c
        have hk0p : k0.percent ≤ percent := hce ▸ hcp
        have hm12 : ((t.filter (fun k => decide (k.percent ≤ percent))).getLastD c).percent =
            ((t.filter (fun k => decide (k.percent ≤ percent))).getLastD k0).percent := by
          cases hfl : t.filter (fun k => decide (k.percent ≤ percent)) with
          | nil => simpa [List.getLastD] using hce
          | cons x xs => rw [List.getLastD_cons, List.getLastD_cons]
        simp only [discreteStepSpec, List.filter_cons, hk0p, hcp, decide_True, if_true,
          List.getLastD_cons, hm12, List.find?_cons]
        by_cases hk : k0.percent =
            ((t.filter (fun k => decide (k.percent ≤ percent))).getLastD k0).percent
        · simp only [decide_eq_true hk]
        · have hck : ¬ c.percent =
              ((t.filter (fun k => decide (k.percent ≤ percent))).getLastD k0).percent := by
            rw [hce]; exact hk
          simp only [decide_eq_false hk, decide_eq_false hck]
      · have hcgt : percent < c.percent := not_le.mp hcp
        have hft : t.filter (fun k => decide (k.percent ≤ percent)) = [] := by
          apply List.filter_eq_nil_iff.mpr
          intro x hx
          simp only [decide_eq_true_eq]
          exact not_le.mpr (lt_of_lt_of_le hcgt (hct x hx))
        by_cases hk0 : k0.percent ≤ percent
        · simp only [discreteStepSpec, List.filter_cons, hk0, hcp, decide_True, decide_False,
            if_true, if_false, hft, List.getLastD, List.find?_cons, decide_eq_true_eq]
          simp
        · simp only [discreteStepSpec, List.filter_cons, hk0, hcp, decide_False, if_false, hft]
          simp

theorem rat_floor_int_add_half (n : ℤ) : Rat.floor ((n : ℚ) + 1 / 2) = n := by
  have h1 : n ≤ Rat.floor ((n : ℚ) + 1 / 2) := Rat.le_floor.mpr (by linarith)
  have h2 : Rat.floor ((n : ℚ) + 1 / 2) < n + 1 := by
    by_contra hcon
    push_neg at hcon
    have := Rat.le_floor.mp hcon
    push_cast at this
    linarith
  omega

theorem str_empty_append (s : String) : "" ++ s = s := by
  cases s
  simp [String.append]

theorem fixed4ToString_int (n : ℤ) : fixed4ToString (10000 * n) = toString n := by
  unfold fixed4ToString
  cases n with
  | ofNat m =>
    have ha : (10000 * Int.ofNat m).natAbs = 10000 * m := by
      simp [Int.natAbs_mul]
    have hneg : ¬ (10000 * Int.ofNat m < 0) := by
      have h0 : (0 : ℤ) ≤ Int.ofNat m := Int.ofNat_nonneg m
      omega
    simp only [ha, hneg, if_false, Nat.mul_mod_right, Nat.mul_div_cancel_left m (by norm_num : (0:ℕ) < 10000)]
    simp only [if_true]
    rw [str_empty_append]
    rfl
  | negSucc m =>
    have ha : (10000 * Int.negSucc m).natAbs = 10000 * (m + 1) := by
      simp [Int.natAbs_mul]
    have hneg : 10000 * Int.negSucc m < 0 := by
      have : Int.negSucc m < 0 := Int.negSucc_lt_zero m
      omega
    simp only [ha, hneg, if_true, Nat.mul_mod_right,
      Nat.mul_div_cancel_left (m + 1) (by norm_num : (0:ℕ) < 10000)]
    rfl

theorem formatNumber_int (n : ℤ) : formatNumber (.num (n : ℚ)) = toString n := by
  simp only [formatNumber]
  have h : (n : ℚ) * 10000 + 1 / 2 = ((10000 * n : ℤ) : ℚ) + 1 / 2 := by
    push_cast
    ring
  rw [h, rat_floor_int_add_half, fixed4ToString_int]

theorem interpolateValue_num_num (a b : ℚ) (f : JSNum) :
    interpolateValue (.num a) (.num b) f = .str (formatNumber (jinterp a b f)) := rfl

theorem jinterpJ_num (a b q : ℚ) :
    jinterpJ (.num a) (.num b) (.num q) = .num (a + (b - a) * q) := by
  simp only [jinterpJ, jsub, jneg, jadd, jmul, JSNum.num.injEq]
  ring

theorem color_channel_render (a b q : ℚ) :
    formatNumber (jround (jinterpJ (.num a) (.num b) (.num q))) =
      toString (Rat.floor (a + (b - a) * q + 1 / 2)) := by
  rw [jinterpJ_num]
  simp only [jround]
  exact formatNumber_int _

theorem scanFnsAux_names :
    ∀ (n : ℕ) (cs : List Char) (p : String × String),
      p ∈ scanFnsAux n cs → p.1.data.all isWordChar = true := by
  intro n
  induction n with
  | zero =>
    intro cs p h
    simp [scanFnsAux] at h
  | succ n ih =>
    intro cs p h
    cases cs with
    | nil => simp [scanFnsAux] at h
    | cons c t =>
      simp only [scanFnsAux] at h
      by_cases hw : isWordChar c
      · rw [if_pos hw] at h
        split at h
        · split at h
          · split at h
            · exact ih _ p h
            · rcases List.mem_cons.mp h with rfl | h
              · exact List.all_eq_true.mpr (fun x hx => List.mem_takeWhile_imp hx)
              · exact ih _ p h
          · exact ih _ p h
        · exact ih _ p h
      · rw [if_neg hw] at h
        exact ih _ p h

theorem scanFns_names {cs : List Char} {p : String × String} (h : p ∈ scanFns cs) :
    p.1.data.all isWordChar = true :=
  scanFnsAux_names cs.length cs p h

theorem optionMapList_exists {f : α → Option β} :
    ∀ {l : List α}, (∀ x ∈ l, (f x).isSome) → ∃ ys, optionMapList f l = some ys
  | [], _ => ⟨[], rfl⟩
  | x :: t, h => by
    obtain ⟨y, hy⟩ := Option.isSome_iff_exists.mp (h x (List.mem_cons_self x t))
    obtain ⟨ys, hys⟩ := optionMapList_exists (fun z hz => h z (List.mem_cons_of_mem x hz))
    exact ⟨y :: ys, by simp [optionMapList, hy, hys]⟩

theorem optionMapList_split {f : α → Option β} :
    ∀ {l1 : List α} {x : α} {l2 : List α} {ys : List β},
      optionMapList f (l1 ++ x :: l2) = some ys →
      ∃ ys1 y ys2, ys = ys1 ++ y :: ys2 ∧ f x = some y := by
  intro l1
  induction l1 with
  | nil =>
    intro x l2 ys h
    simp only [List.nil_append, optionMapList] at h
    cases hx : f x with
    | none => rw [hx] at h; simp at h
    | some y =>
      rw [hx] at h
      cases hr : optionMapList f l2 with
      | none => rw [hr] at h; simp at h
      | some ys2 =>
        rw [hr] at h
        simp only [Option.some.injEq] at h
        exact ⟨[], y, ys2, h.symm ▸ rfl, rfl⟩
  | cons a t ih =>
    intro x l2 ys h
    simp only [List.cons_append, optionMapList, List.append_eq] at h
    cases ha : f a with
    | none => rw [ha] at h; simp at h
    | some za =>
      rw [ha] at h
      cases hr : optionMapList f (t ++ x :: l2) with
      | none => rw [hr] at h; simp at h
      | some rest =>
        rw [hr] at h
        simp only [Option.some.injEq] at h
        obtain ⟨ys1, y, ys2, hre, hy⟩ := ih hr
        exact ⟨za :: ys1, y, ys2, by rw [← h, hre]; rfl, hy⟩

theorem transformPiece_isSome {sf ef : List (String × TArg)} {q : JSNum} {g : String}
    (h : (getProp sf g).isSome) : (transformPiece sf ef q g).isSome := by
  cases hg : getProp sf g with
  | none => rw [hg] at h; cases h
  | some targ =>
    cases targ with
    | one v u => simp [transformPiece, hg]
    | many args => simp [transformPiece, hg]

/-- C10 amended: the filter parser only produces word-character function
names, so `hue-rotate` is never a parsed name (it parses as `rotate`); the
default-unit table is keyed on the parsed name — `px` for `blur`, `deg`
for the unreachable `hue-rotate`, `%` for everything else.  A function
appearing only in the end value is interpolated from a 0 baseline with
that table unit, and a function appearing only in the start value is held
constant at its start value for every finite factor. -/
theorem filter_union_behavior :
    (∀ (cs : List Char) (p : String × String), p ∈ scanFns cs → p.1 ≠ "hue-rotate") ∧
    (∀ (sv ev : JSVal) (sm em : List (String × (ℚ × String))) (f : String) (v : ℚ)
        (u : String) (q : ℚ),
      parseFilter sv = some sm → parseFilter ev = some em →
      getProp sm f = none → getProp em f = some (v, u) →
      ∃ pre post, interpolateFilter sv ev (.num q) =
        some (String.intercalate " "
          (pre ++ (f ++ "(" ++ formatNumber (.num (v * q)) ++ getDefaultFilterUnit f ++ ")") :: post))) ∧
    (∀ (sv ev : JSVal) (sm em : List (String × (ℚ × String))) (f : String) (v : ℚ)
        (u : String) (q : ℚ),
      parseFilter sv = some sm → parseFilter ev = some em →
      getProp sm f = some (v, u) → getProp em f = none →
      ∃ pre post, interpolateFilter sv ev (.num q) =
        some (String.intercalate " "
          (pre ++ (f ++ "(" ++ formatNumber (.num v) ++ u ++ ")") :: post))) := by
  refine ⟨?_, ?_, ?_⟩
  · intro cs p h heq
    have hall := scanFns_names h
    rw [heq] at hall
    exact absurd hall (by decide)
  · intro sv ev sm em f v u q hsv hev hsmf hemf
    have hfmem : f ∈ jsDedup (sm.map Prod.fst ++ em.map Prod.fst) :=
      mem_jsDedup.mpr (List.mem_append.mpr (Or.inr (getProp_some_mem hemf)))
    obtain ⟨l1, l2, hsplit⟩ := List.append_of_mem hfmem
    refine ⟨l1.map (filterPiece sm em (.num q)), l2.map (filterPiece sm em (.num q)), ?_⟩
    have hpf : filterPiece sm em (.num q) f =
        f ++ "(" ++ formatNumber (.num (v * q)) ++ getDefaultFilterUnit f ++ ")" := by
      simp only [filterPiece, hsmf, Option.getD_none, hemf, Option.getD_some,
        interpolateValue_num_num, jinterp_num, jstr]
      have he : (0 : ℚ) + (v - 0) * q = v * q := by ring
      rw [he]
    simp only [interpolateFilter, hsv, hev, hsplit, List.map_append, List.map_cons, hpf]
  · intro sv ev sm em f v u q hsv hev hsmf hemf
    have hfmem : f ∈ jsDedup (sm.map Prod.fst ++ em.map Prod.fst) :=
      mem_jsDedup.mpr (List.mem_append.mpr (Or.inl (getProp_some_mem hsmf)))
    obtain ⟨l1, l2, hsplit⟩ := List.append_of_mem hfmem
    refine ⟨l1.map (filterPiece sm em (.num q)), l2.map (filterPiece sm em (.num q)), ?_⟩
    have hpf : filterPiece sm em (.num q) f = f ++ "(" ++ formatNumber (.num v) ++ u ++ ")" := by
      simp only [filterPiece, hsmf, Option.getD_some, hemf, Option.getD_none,
        interpolateValue_num_num, jinterp_num, jstr]
      have he : v + (v - v) * q = v := by ring
      rw [he]
    simp only [interpolateFilter, hsv, hev, hsplit, List.map_append, List.map_cons, hpf]

/-- C10 witness: `blur(10px) → blur(20px) brightness(2)` at factor 0.5 —
`brightness` is end-only and interpolates from baseline 0 with table unit
`%`; in the reversed direction it is start-only and held at 2. -/
theorem filter_union_behavior_witness :
    (∃ pre post, interpolateFilter (.str "blur(10px)") (.str "blur(20px) brightness(2)")
        (.num (1/2)) =
      some (String.intercalate " "
        (pre ++ ("brightness" ++ "(" ++ formatNumber (.num ((2 : ℚ) * (1/2))) ++
          getDefaultFilterUnit "brightness" ++ ")") :: post))) ∧
    (∃ pre post, interpolateFilter (.str "blur(20px) brightness(2)") (.str "blur(10px)")
        (.num (1/2)) =
      some (String.intercalate " "
        (pre ++ ("brightness" ++ "(" ++ formatNumber (.num (2 : ℚ)) ++ "" ++ ")") :: post))) :=
  ⟨filter_union_behavior.2.1 (.str "blur(10px)") (.str "blur(20px) brightness(2)")
      [("blur", (10, "px"))] [("blur", (20, "px")), ("brightness", (2, ""))] "brightness" 2 ""
      (1/2) (by decide) (by decide) (by decide) (by decide),
   filter_union_behavior.2.2 (.str "blur(20px) brightness(2)") (.str "blur(10px)")
      [("blur", (20, "px")), ("brightness", (2, ""))] [("blur", (10, "px"))] "brightness" 2 ""
      (1/2) (by decide) (by decide) (by decide) (by decide)⟩

/-- C3 amended: the transform union loop renders one entry per function
name in the union, but a function missing from the *start* side makes the
call throw — the fallback expression calls `this.isNumericFunction`, which
this class does not define — so no neutral default is ever substituted
there (and for functions present on both sides, the emitted unit is the
start side's unit, not one inferred from the counterpart); a function
missing from the *end* side is held at its start value. -/
theorem transform_union_behavior :
    (∀ (sv ev : JSVal) (f : String) (q : JSNum),
      getProp (parseTransform sv) f = none → f ∈ (parseTransform ev).map Prod.fst →
      interpolateTransform sv ev q = none) ∧
    (∀ (sv ev : JSVal) (sm em : List (String × TArg)) (f : String) (a b : ℚ)
        (u u2 : String) (q : ℚ),
      parseTransform sv = sm → parseTransform ev = em →
      (∀ g ∈ em.map Prod.fst, (getProp sm g).isSome) →
      getProp sm f = some (.one a u) → getProp em f = some (.one b u2) →
      ∃ pre post, interpolateTransform sv ev (.num q) =
        some (String.intercalate " "
          (pre ++ (f ++ "(" ++ formatNumber (.num (a + (b - a) * q)) ++ u ++ ")") :: post))) ∧
    (∀ (sv ev : JSVal) (sm em : List (String × TArg)) (f : String) (a : ℚ)
        (u : String) (q : ℚ),
      parseTransform sv = sm → parseTransform ev = em →
      (∀ g ∈ em.map Prod.fst, (getProp sm g).isSome) →
      getProp sm f = some (.one a u) → getProp em f = none →
      ∃ pre post, interpolateTransform sv ev (.num q) =
        some (String.intercalate " "
          (pre ++ (f ++ "(" ++ formatNumber (.num a) ++ u ++ ")") :: post))) := by
  refine ⟨?_, ?_, ?_⟩
  · intro sv ev f q hnone hfem
    have hf : f ∈ jsDedup ((parseTransform sv).map Prod.fst ++ (parseTransform ev).map Prod.fst) :=
      mem_jsDedup.mpr (List.mem_append.mpr (Or.inr hfem))
    have hpiece : transformPiece (parseTransform sv) (parseTransform ev) q f = none := by
      simp [transformPiece, hnone]
    simp only [interpolateTransform]
    rw [optionMapList_none hf hpiece]
    rfl
  · intro sv ev sm em f a b u u2 q hsv hev hall hsmf hemf
    have hsome : ∀ g ∈ jsDedup (sm.map Prod.fst ++ em.map Prod.fst),
        (transformPiece sm em (.num q) g).isSome := by
      intro g hg
      rcases List.mem_append.mp (mem_jsDedup.mp hg) with hgs | hge
      · exact transformPiece_isSome (getProp_isSome_iff.mpr hgs)
      · exact transformPiece_isSome (hall g hge)
    have hfmem : f ∈ jsDedup (sm.map Prod.fst ++ em.map Prod.fst) :=
      mem_jsDedup.mpr (List.mem_append.mpr (Or.inl (getProp_some_mem hsmf)))
    obtain ⟨l1, l2, hsplit⟩ := List.append_of_mem hfmem
    rw [hsplit] at hsome
    obtain ⟨ys, hys⟩ := optionMapList_exists hsome
    obtain ⟨ys1, y, ys2, hre, hy⟩ := optionMapList_split hys
    have hyval : y = f ++ "(" ++ formatNumber (.num (a + (b - a) * q)) ++ u ++ ")" := by
      have hp : transformPiece sm em (.num q) f =
          some (f ++ "(" ++ formatNumber (.num (a + (b - a) * q)) ++ u ++ ")") := by
        simp only [transformPiece, hsmf, hemf, Option.getD_some, interpolateValue_num_num,
          jinterp_num, jstr]
      rw [hp] at hy
      exact (Option.some.inj hy).symm
    refine ⟨ys1, ys2, ?_⟩
    simp only [interpolateTransform, hsv, hev, hsplit]
    rw [hys, hre, hyval]
    rfl
  · intro sv ev sm em f a u q hsv hev hall hsmf hemf
    have hsome : ∀ g ∈ jsDedup (sm.map Prod.fst ++ em.map Prod.fst),
        (transformPiece sm em (.num q) g).isSome := by
      intro g hg
      rcases List.mem_append.mp (mem_jsDedup.mp hg) with hgs | hge
      · exact transformPiece_isSome (getProp_isSome_iff.mpr hgs)
      · exact transformPiece_isSome (hall g hge)
    have hfmem : f ∈ jsDedup (sm.map Prod.fst ++ em.map Prod.fst) :=
      mem_jsDedup.mpr (List.mem_append.mpr (Or.inl (getProp_some_mem hsmf)))
    obtain ⟨l1, l2, hsplit⟩ := List.append_of_mem hfmem
    rw [hsplit] at hsome
    obtain ⟨ys, hys⟩ := optionMapList_exists hsome
    obtain ⟨ys1, y, ys2, hre, hy⟩ := optionMapList_split hys
    have hyval : y = f ++ "(" ++ formatNumber (.num a) ++ u ++ ")" := by
      have hp : transformPiece sm em (.num q) f =
          some (f ++ "(" ++ formatNumber (.num a) ++ u ++ ")") := by
        simp only [transformPiece, hsmf, hemf, Option.getD_none, Option.getD_some,
          interpolateValue_num_num, jinterp_num, jstr]
        have he : a + (a - a) * q = a := by ring
        rw [he]
      rw [hp] at hy
      exact (Option.some.inj hy).symm
    refine ⟨ys1, ys2, ?_⟩
    simp only [interpolateTransform, hsv, hev, hsplit]
    rw [hys, hre, hyval]
    rfl

/-- C3 witness: on the claim's example the start-missing `rotate` makes
the call throw; with `rotate(0deg)` added to the start side, both
functions interpolate and `rotate` emits the start unit `deg`. -/
theorem transform_union_behavior_witness :
    interpolateTransform (.str "translateX(0px)") (.str "translateX(10px) rotate(10deg)")
      (.num (1/2)) = none ∧
    (∃ pre post, interpolateTransform (.str "translateX(0px) rotate(0deg)")
        (.str "translateX(10px) rotate(10deg)") (.num (1/2)) =
      some (String.intercalate " "
        (pre ++ ("rotate" ++ "(" ++ formatNumber (.num ((0 : ℚ) + (10 - 0) * (1/2))) ++
          "deg" ++ ")") :: post))) :=
  ⟨transform_union_behavior.1 (.str "translateX(0px)") (.str "translateX(10px) rotate(10deg)")
      "rotate" (.num (1/2)) (by decide) (by decide),
   transform_union_behavior.2.1 (.str "translateX(0px) rotate(0deg)")
      (.str "translateX(10px) rotate(10deg)")
      [("translateX", .one 0 "px"), ("rotate", .one 0 "deg")]
      [("translateX", .one 10 "px"), ("rotate", .one 10 "deg")] "rotate" 0 10 "deg" "deg" (1/2)
      (by decide) (by decide) (by decide) (by decide) (by decide)⟩

/-- C7 amended: when both endpoints are recognized as colors, only hex
`#RRGGBB` endpoints are decoded to their RGB triple — every other
recognized form (`rgb(...)`, `hsl(...)`, `hsla(...)`, ...) is treated as
`[0,0,0]`, with no HSL→RGB conversion.  Each channel is linearly
interpolated by the factor and rounded half-up (`Math.round`), with no
clamping to [0,255], and the result is re-encoded as `rgb(r,g,b)`. -/
theorem color_interpolation_behavior :
    (∀ s : String, strStartsWith s "#" = false → colorToRGB s = [.num 0, .num 0, .num 0]) ∧
    (∀ (s1 s2 : String) (r1 g1 b1 r2 g2 b2 q : ℚ),
      isColor (.str s1) = true → isColor (.str s2) = true →
      colorToRGB s1 = [.num r1, .num g1, .num b1] →
      colorToRGB s2 = [.num r2, .num g2, .num b2] →
      interpolateValue (.str s1) (.str s2) (.num q) =
        .str ("rgb(" ++ toString (Rat.floor (r1 + (r2 - r1) * q + 1 / 2)) ++ "," ++
          toString (Rat.floor (g1 + (g2 - g1) * q + 1 / 2)) ++ "," ++
          toString (Rat.floor (b1 + (b2 - b1) * q + 1 / 2)) ++ ")")) := by
  constructor
  · intro s h
    simp [colorToRGB, h]
  · intro s1 s2 r1 g1 b1 r2 g2 b2 q hc1 hc2 h1 h2
    simp only [interpolateValue, hc1, hc2, Bool.and_self, if_true]
    simp only [jstr, interpolateColor, h1, h2, List.getD_cons_zero, List.getD_cons_succ]
    rw [color_channel_render, color_channel_render, color_channel_render]

/-- C7 witness: an HSL endpoint decodes to `[0,0,0]`, and the hex pair
`#000000 → #ff0000` at factor 0.5 renders as `rgb(128,0,0)` (127.5
rounded half-up, no clamping involved). -/
theorem color_interpolation_behavior_witness :
    colorToRGB "hsl(120,100%,50%)" = [.num 0, .num 0, .num 0] ∧
    interpolateValue (.str "#000000") (.str "#ff0000") (.num (1/2)) = .str "rgb(128,0,0)" :=
  ⟨color_interpolation_behavior.1 "hsl(120,100%,50%)" (by decide),
   (color_interpolation_behavior.2 "#000000" "#ff0000" 0 0 0 255 0 0 (1/2) (by decide)
     (by decide) (by decide) (by decide)).trans (by decide)⟩

/-- C6 amended: for a discrete property over sorted keyframes, evaluation
returns the value of the keyframe chosen by the step policy: the
*earliest* relevant keyframe achieving the greatest percent that is ≤ the
requested percent (ties go to the first of the group, not the last), and
the first relevant keyframe when the requested percent precedes them all. -/
theorem discrete_step_policy (kfs : List Keyframe) (prop : String) (percent : ℚ)
    (hd : discreteProperties.contains prop = true)
    (hs : kfs.Pairwise (fun a b => a.percent ≤ b.percent)) :
    interpolateProperty kfs prop percent =
      some (match discreteStepSpec (relevantKeyframes kfs prop) percent with
            | none => JSVal.null
            | some k => (getProp k.styles prop).getD .null) := by
  have hsorted : (relevantKeyframes kfs prop).Pairwise (fun a b => a.percent ≤ b.percent) :=
    List.Pairwise.sublist (List.filter_sublist kfs) hs
  simp only [interpolateProperty, hd, if_true]
  congr 1
  unfold interpolateDiscreteProperty
  cases hr : relevantKeyframes kfs prop with
  | nil => simp [discreteStepSpec]
  | cons k0 rest =>
    rw [hr] at hsorted
    rw [discreteFold_spec percent rest k0 hsorted]

/-- C6 witness: the claim's own examples hold — `display` keyframes at
0% → `block`, 50% → `none` give `block` at percent 20 and `none` at
percent 70. -/
theorem discrete_step_policy_witness :
    interpolateProperty [⟨0, [("display", .str "block")]⟩, ⟨50, [("display", .str "none")]⟩]
      "display" 20 = some (.str "block") ∧
    interpolateProperty [⟨0, [("display", .str "block")]⟩, ⟨50, [("display", .str "none")]⟩]
      "display" 70 = some (.str "none") :=
  ⟨(discrete_step_policy [⟨0, [("display", .str "block")]⟩, ⟨50, [("display", .str "none")]⟩]
      "display" 20 (by decide) (by decide)).trans (by decide),
   (discrete_step_policy [⟨0, [("display", .str "block")]⟩, ⟨50, [("display", .str "none")]⟩]
      "display" 70 (by decide) (by decide)).trans (by decide)⟩

/-- C5 witness: keyframes 0% → `0px` and 100% → `100px` evaluated at
percent 150 (progress 1.5) give `150px`, not a clamped `100px`. -/
theorem extrapolation_linear_witness :
    interpolateProperty [⟨0, [("width", .str "0px")]⟩, ⟨100, [("width", .str "100px")]⟩]
      "width" 150 = some (.str "150px") :=
  ((extrapolation_linear [⟨0, [("width", .str "0px")]⟩, ⟨100, [("width", .str "100px")]⟩]
      "width" 150 (by decide) (by decide) (by decide)).1 [] ⟨0, [("width", .str "0px")]⟩
      ⟨100, [("width", .str "100px")]⟩ 0 100 "px" (by decide) (by decide) (by decide)
      (by decide)).trans (by decide)

end Tween
